import Mathlib

/-!
Verification of the temperature/humidity monitor (src/main.py, src/utils.py).

The Python source is shallowly embedded: numeric sensor values become `ℚ`,
Python strings become `List Char`, fallible code returns `Except`/`Option`,
and the stateful monitor loop becomes an explicit state-passing function
whose side effects (notifications, log writes, rotation, sleeping) are
recorded as an explicit action trace.
-/

/-! ## Range watching (src/main.py, `Monitor.start`, lines 87-102)

The loop body keeps one boolean per quantity (`self.temp_out_of_range`,
`self.hum_out_of_range`).  For each fresh value it executes

    if not (range[0] < value < range[1]):
        if not out_of_range:
            out_of_range = True
            notify(...)
    else:
        out_of_range = False
-/

/-- Whether the Python test `range[0] < value < range[1]` fails,
i.e. the value counts as out of range (bounds are exclusive). -/
def outOfRange (lo hi v : ℚ) : Bool :=
  !(decide (lo < v) && decide (v < hi))

/-- One range check from `Monitor.start` (main.py lines 87-93 for
temperature, 96-102 for humidity): given the stored out-of-range bit,
returns the new bit together with whether a notification fired. -/
def rangeStep (lo hi : ℚ) (st : Bool) (v : ℚ) : Bool × Bool :=
  if outOfRange lo hi v then
    if !st then (true, true) else (true, false)
  else
    (false, false)

/-- Feeding a sequence of values through the range check of
`Monitor.start`, recording for each sample whether a notification fired. -/
def runWatcher (lo hi : ℚ) (st : Bool) : List ℚ → List Bool
  | [] => []
  | v :: vs =>
    let r := rangeStep lo hi st v
    r.2 :: runWatcher lo hi r.1 vs

theorem rangeStep_eq (lo hi : ℚ) (st : Bool) (v : ℚ) :
    rangeStep lo hi st v = (outOfRange lo hi v, outOfRange lo hi v && !st) := by
  unfold rangeStep
  cases h : outOfRange lo hi v <;> cases st <;> simp [h]

theorem runWatcher_length (lo hi : ℚ) (st : Bool) (vs : List ℚ) :
    (runWatcher lo hi st vs).length = vs.length := by
  induction vs generalizing st with
  | nil => rfl
  | cons v vs ih => simp [runWatcher, ih]

theorem runWatcher_getElem (lo hi : ℚ) (st : Bool) (vs : List ℚ) (i : ℕ)
    (h : i < vs.length) (h2 : i < (runWatcher lo hi st vs).length) :
    (runWatcher lo hi st vs)[i] =
      (outOfRange lo hi vs[i] &&
        !(if hz : i = 0 then st else outOfRange lo hi (vs.get ⟨i - 1, by omega⟩))) := by
  induction vs generalizing st i with
  | nil => simp at h
  | cons v vs ih =>
    cases i with
    | zero => simp [runWatcher, rangeStep_eq]
    | succ j =>
      have hj : j < vs.length := by simpa using h
      have hj2 : j < (runWatcher lo hi (rangeStep lo hi st v).1 vs).length := by
        rw [runWatcher_length]; exact hj
      simp only [runWatcher, List.getElem_cons_succ]
      rw [ih (rangeStep lo hi st v).1 j hj hj2]
      rw [rangeStep_eq]
      cases j with
      | zero => simp
      | succ k => simp

/-- Claim C1: Starting from the initial in-range state (`false`, as set in
`Monitor.__init__`), the range check of `Monitor.start` fires a
notification at exactly those samples that are out of range and whose
immediately preceding sample (or the initial state, for the first
sample) was in range.  Hence a contiguous out-of-range run fires once at
its first sample only, and a single in-range sample re-arms the
detector; the temperature and humidity instances are this same check at
their respective ranges, each with its own state bit. -/
theorem rangeWatcher_edge_detection (lo hi : ℚ) (vs : List ℚ) (i : ℕ)
    (h : i < vs.length) :
    (runWatcher lo hi false vs).get ⟨i, by rw [runWatcher_length]; exact h⟩ =
      (outOfRange lo hi (vs.get ⟨i, h⟩) &&
        (decide (i = 0) || !outOfRange lo hi (vs.getD (i - 1) 0))) := by
  have h2 : i < (runWatcher lo hi false vs).length := by
    rw [runWatcher_length]; exact h
  rw [List.get_eq_getElem, List.get_eq_getElem,
    runWatcher_getElem lo hi false vs i h h2]
  by_cases hz : i = 0
  · subst hz; simp
  · have hi1 : i - 1 < vs.length := by omega
    simp [hz, List.getD, List.getElem?_eq_getElem hi1]

/-- Witness for C1: the run `[5, 50, 60, 5, 70]` against range `(0, 10)`
fires at samples 1 and 4 (the entries into out-of-range) but not at the
repeat sample 2. -/
theorem rangeWatcher_edge_detection_witness :
    (1 < ([5, 50, 60, 5, 70] : List ℚ).length ∧
      (runWatcher 0 10 false [5, 50, 60, 5, 70]).get ⟨1, by decide⟩ = true) ∧
    (2 < ([5, 50, 60, 5, 70] : List ℚ).length ∧
      (runWatcher 0 10 false [5, 50, 60, 5, 70]).get ⟨2, by decide⟩ = false) ∧
    (4 < ([5, 50, 60, 5, 70] : List ℚ).length ∧
      (runWatcher 0 10 false [5, 50, 60, 5, 70]).get ⟨4, by decide⟩ = true) := by
  refine ⟨⟨by decide, ?_⟩, ⟨by decide, ?_⟩, ⟨by decide, ?_⟩⟩
  · rw [rangeWatcher_edge_detection 0 10 [5, 50, 60, 5, 70] 1 (by decide)]; decide
  · rw [rangeWatcher_edge_detection 0 10 [5, 50, 60, 5, 70] 2 (by decide)]; decide
  · rw [rangeWatcher_edge_detection 0 10 [5, 50, 60, 5, 70] 4 (by decide)]; decide

/-- Claim C2: A single range check classifies `v` as out of range iff
`¬ (low < v < high)` — in particular a value equal to either bound is
out of range (e.g. `check(32, [32, 90])`) — and an in-range value resets
the state bit to `false` unconditionally while firing no notification. -/
theorem rangeCheck_exclusive_bounds_and_silent_reset (lo hi v : ℚ) (st : Bool) :
    (outOfRange lo hi v = true ↔ ¬(lo < v ∧ v < hi)) ∧
    outOfRange lo hi lo = true ∧
    outOfRange lo hi hi = true ∧
    outOfRange 32 90 32 = true ∧
    (outOfRange lo hi v = false → rangeStep lo hi st v = (false, false)) := by
  refine ⟨?_, ?_, ?_, by decide, ?_⟩
  · simp [outOfRange, not_and_or, not_lt, or_iff_not_imp_left, not_le]
  · simp [outOfRange]
  · simp [outOfRange]
  · intro hin
    simp [rangeStep, hin]

/-- Witness for C2 at `lo = 0`, `hi = 10`, `v = 5`, `st = true`. -/
theorem rangeCheck_exclusive_bounds_and_silent_reset_witness :
    (outOfRange 0 10 5 = true ↔ ¬((0 : ℚ) < 5 ∧ (5 : ℚ) < 10)) ∧
    outOfRange 0 10 0 = true ∧
    outOfRange 0 10 10 = true ∧
    outOfRange 32 90 32 = true ∧
    (outOfRange 0 10 5 = false → rangeStep 0 10 true 5 = (false, false)) :=
  rangeCheck_exclusive_bounds_and_silent_reset 0 10 5 true

/-! ## The monitor loop (src/main.py, `Monitor.start`, lines 79-117)

One iteration of the `while True` body, with its side effects recorded
as an action trace.  The source order is: read the sensor and convert
Celsius to Fahrenheit (82-83), temperature range check with possible
notification (87-93), humidity range check (96-102), day-rollover check
with END_OF_DAY notification and logger rotation (105-107), append the
log line (110), sleep (111).  A `BaseException` anywhere in the body is
caught once at top level (113-117): it is logged, an ERROR notification
is attempted, and the loop breaks.
-/

/-- The observable actions of one loop iteration of `Monitor.start`. -/
inductive Act where
  | sample (rawTemp hum : ℚ)
  | notifyTempOor
  | notifyHumOor
  | notifyEndOfDay
  | rotate (day : ℕ)
  | logLine (temp hum : ℚ)
  | sleep
  | notifyError (msg : List Char)
  deriving DecidableEq

/-- The configured ranges (`temp_range`, `humidity_range` from config.json). -/
structure Config where
  tempLo : ℚ
  tempHi : ℚ
  humLo : ℚ
  humHi : ℚ

/-- The mutable monitor state: the two out-of-range bits and the current
date (`self.date`, abstracted to a day ordinal). -/
structure MState where
  tempOor : Bool
  humOor : Bool
  date : ℕ
  deriving DecidableEq

/-- The environment of one iteration: the sensor measurement
(`self.sensor.measurements`, temperature still in Celsius) and the
wall-clock date observed by `dt.now().date()`. -/
structure Sample where
  rawTemp : ℚ
  hum : ℚ
  day : ℕ

/-- One successful iteration of the `while True` body of `Monitor.start`
(main.py lines 82-111), returning the new state and the action trace in
source order. -/
def loopIter (cfg : Config) (s : MState) (inp : Sample) : MState × List Act :=
  let temp := inp.rawTemp * 9 / 5 + 32
  let tRes := rangeStep cfg.tempLo cfg.tempHi s.tempOor temp
  let hRes := rangeStep cfg.humLo cfg.humHi s.humOor inp.hum
  let rollover := inp.day ≠ s.date
  (⟨tRes.1, hRes.1, if rollover then inp.day else s.date⟩,
    [Act.sample inp.rawTemp inp.hum]
      ++ (if tRes.2 then [Act.notifyTempOor] else [])
      ++ (if hRes.2 then [Act.notifyHumOor] else [])
      ++ (if rollover then [Act.notifyEndOfDay, Act.rotate inp.day] else [])
      ++ [Act.logLine temp inp.hum, Act.sleep])

/-- Running `Monitor.start` over a list of per-iteration environments.
`Except.error` in the input models a sensor read raising during step 1;
the top-level handler (main.py lines 113-117) then notifies ERROR and
breaks, abandoning the rest of the input. -/
def runMonitor (cfg : Config) (s : MState) :
    List (Except (List Char) Sample) → MState × List Act
  | [] => (s, [])
  | .error e :: _ => (s, [Act.notifyError e])
  | .ok inp :: rest =>
    let r := loopIter cfg s inp
    let r2 := runMonitor cfg r.1 rest
    (r2.1, r.2 ++ r2.2)

/-- The per-receiver send loop of `Monitor.notify` (main.py lines
160-169): each receiver is tried in turn; a raising send is caught for
that receiver alone and turned into a logged warning.  The result pairs
every receiver with the warning recorded for it (`none` = sent). -/
def notifyReceivers (send : ℕ → Except (List Char) Unit) :
    List ℕ → List (ℕ × Option (List Char))
  | [] => []
  | r :: rs =>
    (r, match send r with
        | .ok _ => none
        | .error e => some e) :: notifyReceivers send rs

/-- Claim C9: A failure while sending to one receiver is caught
per-receiver and logged as a warning, never propagated: every receiver
is attempted no matter which sends fail, failed sends show up exactly as
warnings, and the routine's outcome is a plain list (nothing escapes to
abort the cycle).  By contrast a sampling failure is fatal: the loop
notifies ERROR and stops, processing no further iterations. -/
theorem notify_failures_caught_per_receiver
    (send : ℕ → Except (List Char) Unit) (rs : List ℕ)
    (cfg : Config) (s : MState) (e : List Char)
    (rest : List (Except (List Char) Sample)) :
    (notifyReceivers send rs).map Prod.fst = rs ∧
    (notifyReceivers send rs =
      rs.map (fun r => (r, match send r with
                           | .ok _ => none
                           | .error msg => some msg))) ∧
    runMonitor cfg s (.error e :: rest) = (s, [Act.notifyError e]) := by
  refine ⟨?_, ?_, rfl⟩
  · induction rs with
    | nil => rfl
    | cons r rs ih => simpa [notifyReceivers] using ih
  · induction rs with
    | nil => rfl
    | cons r rs ih => simpa [notifyReceivers] using ih

/-- Witness for C9: two receivers where the first send fails; both are
attempted, the failure is a warning on the first; a sampling error stops
the run. -/
theorem notify_failures_caught_per_receiver_witness :
    (notifyReceivers
        (fun r => if r = 1 then .error ['x'] else .ok ())
        [1, 2]).map Prod.fst = [1, 2] ∧
    (notifyReceivers
        (fun r => if r = 1 then .error ['x'] else .ok ())
        [1, 2] =
      [1, 2].map (fun r =>
        (r, match (if r = 1 then (.error ['x'] : Except (List Char) Unit)
                   else .ok ()) with
            | .ok _ => none
            | .error msg => some msg))) ∧
    runMonitor ⟨0, 10, 0, 10⟩ ⟨false, false, 0⟩
        (.error ['b'] :: [.ok ⟨5, 5, 0⟩]) =
      (⟨false, false, 0⟩, [Act.notifyError ['b']]) :=
  notify_failures_caught_per_receiver
    (fun r => if r = 1 then .error ['x'] else .ok ()) [1, 2]
    ⟨0, 10, 0, 10⟩ ⟨false, false, 0⟩ ['b'] [.ok ⟨5, 5, 0⟩]

/-- Counterexample for C5: the claimed order (append the reading to the
log before that iteration's rollover) fails: in an iteration where the
date has changed (state date 0, wall-clock day 1, in-range reading
20 °C / 50 %), the trace of `Monitor.start` performs the END_OF_DAY
notification and the rotation *before* the log append. -/
theorem loop_step_order_counterexample :
    (loopIter ⟨0, 100, 0, 100⟩ ⟨false, false, 0⟩ ⟨20, 50, 1⟩).2 =
      [Act.sample 20 50, Act.notifyEndOfDay, Act.rotate 1,
        Act.logLine 68 50, Act.sleep] ∧
    ((loopIter ⟨0, 100, 0, 100⟩ ⟨false, false, 0⟩ ⟨20, 50, 1⟩).2[2]? =
        some (Act.rotate 1) ∧
      (loopIter ⟨0, 100, 0, 100⟩ ⟨false, false, 0⟩ ⟨20, 50, 1⟩).2[3]? =
        some (Act.logLine 68 50) ∧
      (2 : ℕ) < 3) := by
  have hT : (loopIter ⟨0, 100, 0, 100⟩ ⟨false, false, 0⟩ ⟨20, 50, 1⟩).2 =
      [Act.sample 20 50, Act.notifyEndOfDay, Act.rotate 1,
        Act.logLine 68 50, Act.sleep] := by
    norm_num [loopIter, rangeStep, outOfRange]
  refine ⟨hT, ?_, ?_, by decide⟩ <;> rw [hT] <;> rfl

/-- Amended C5: in every RUNNING iteration the actual order of
`Monitor.start` (main.py lines 82-111) is: sample the sensor, then the
range checks, then the rollover check and any rotation, then append the
reading to the log, then sleep.  In particular the reading is appended
*after* that iteration's rollover (into the new day's log): in any
iteration that rolls over, the rotation occurs at an earlier trace
position than the log append.  The trace is: the sample first, then
only range-check notifications, then - exactly when the date changed -
the END_OF_DAY notification followed by the rotation, then the log
append, then the sleep. -/
theorem loop_step_order_amended (cfg : Config) (s : MState) (inp : Sample) :
    ((loopIter cfg s inp).2.head? = some (Act.sample inp.rawTemp inp.hum)) ∧
    (∃ checks rollActs,
      (loopIter cfg s inp).2 =
        Act.sample inp.rawTemp inp.hum :: (checks ++ rollActs) ++
          [Act.logLine (inp.rawTemp * 9 / 5 + 32) inp.hum, Act.sleep] ∧
      (∀ a ∈ checks, a = Act.notifyTempOor ∨ a = Act.notifyHumOor) ∧
      (if inp.day ≠ s.date then
        rollActs = [Act.notifyEndOfDay, Act.rotate inp.day]
      else rollActs = [])) ∧
    (inp.day ≠ s.date →
      ∃ i j : ℕ, i < j ∧
        (loopIter cfg s inp).2[i]? = some (Act.rotate inp.day) ∧
        (loopIter cfg s inp).2[j]? =
          some (Act.logLine (inp.rawTemp * 9 / 5 + 32) inp.hum)) := by
  refine ⟨?_, ?_, ?_⟩
  · simp [loopIter]
  · refine ⟨(if (rangeStep cfg.tempLo cfg.tempHi s.tempOor
        (inp.rawTemp * 9 / 5 + 32)).2 then [Act.notifyTempOor] else []) ++
      (if (rangeStep cfg.humLo cfg.humHi s.humOor inp.hum).2 then
        [Act.notifyHumOor] else []),
      (if inp.day ≠ s.date then [Act.notifyEndOfDay, Act.rotate inp.day]
        else []), ?_, ?_, ?_⟩
    · simp [loopIter]
    · intro a ha
      rcases List.mem_append.1 ha with h2 | h2
      · left
        revert h2
        split <;> simp_all
      · right
        revert h2
        split <;> simp_all
    · by_cases hrd : inp.day ≠ s.date
      · rw [if_pos hrd, if_pos hrd]
      · rw [if_neg hrd, if_neg hrd]
  · intro hroll
    cases htf : (rangeStep cfg.tempLo cfg.tempHi s.tempOor
        (inp.rawTemp * 9 / 5 + 32)).2 <;>
      cases hhf : (rangeStep cfg.humLo cfg.humHi s.humOor inp.hum).2
    · exact ⟨2, 3, by omega, by simp [loopIter, htf, hhf, hroll],
        by simp [loopIter, htf, hhf, hroll]⟩
    · exact ⟨3, 4, by omega, by simp [loopIter, htf, hhf, hroll],
        by simp [loopIter, htf, hhf, hroll]⟩
    · exact ⟨3, 4, by omega, by simp [loopIter, htf, hhf, hroll],
        by simp [loopIter, htf, hhf, hroll]⟩
    · exact ⟨4, 5, by omega, by simp [loopIter, htf, hhf, hroll],
        by simp [loopIter, htf, hhf, hroll]⟩

/-- Witness for the amended C5 at an iteration that rolls over. -/
theorem loop_step_order_amended_witness :
    ((loopIter ⟨0, 100, 0, 100⟩ ⟨false, false, 0⟩ ⟨20, 50, 1⟩).2.head? =
      some (Act.sample 20 50)) ∧
    (∃ checks rollActs,
      (loopIter ⟨0, 100, 0, 100⟩ ⟨false, false, 0⟩ ⟨20, 50, 1⟩).2 =
        Act.sample 20 50 :: (checks ++ rollActs) ++
          [Act.logLine (20 * 9 / 5 + 32) 50, Act.sleep] ∧
      (∀ a ∈ checks, a = Act.notifyTempOor ∨ a = Act.notifyHumOor) ∧
      (if (1 : ℕ) ≠ 0 then rollActs = [Act.notifyEndOfDay, Act.rotate 1]
      else rollActs = [])) ∧
    ((1 : ℕ) ≠ 0 →
      ∃ i j : ℕ, i < j ∧
        (loopIter ⟨0, 100, 0, 100⟩ ⟨false, false, 0⟩ ⟨20, 50, 1⟩).2[i]? =
          some (Act.rotate 1) ∧
        (loopIter ⟨0, 100, 0, 100⟩ ⟨false, false, 0⟩ ⟨20, 50, 1⟩).2[j]? =
          some (Act.logLine (20 * 9 / 5 + 32) 50)) :=
  loop_step_order_amended ⟨0, 100, 0, 100⟩ ⟨false, false, 0⟩ ⟨20, 50, 1⟩

/-! ## End-of-day summary (src/main.py, `Monitor.notify`, lines 149-157)

The END_OF_DAY report computes `sum(xs)/len(xs)`, `min(xs)` and
`max(xs)` for the day's temperatures and again for its humidities (the
same mean reduction appears in utils.py line 176).  On an empty day all
three raise in Python (`ZeroDivisionError` / `ValueError` on `min([])`);
the spec names this failure `EmptyInputError`.  The embedding returns
`Except`. -/

inductive EmptyInputError where
  | emptyInput
  deriving DecidableEq

/-- Computes `(sum(xs)/len(xs), min(xs), max(xs))` as the END_OF_DAY
branch of `Monitor.notify` does for one quantity; empty input fails. -/
def summarize (xs : List ℚ) : Except EmptyInputError (ℚ × ℚ × ℚ) :=
  match xs with
  | [] => .error .emptyInput
  | x :: rest =>
    .ok ((x :: rest).sum / ((x :: rest).length : ℚ),
      rest.foldl min x, rest.foldl max x)

theorem foldl_min_mem (a : ℚ) (l : List ℚ) : l.foldl min a ∈ a :: l := by
  induction l generalizing a with
  | nil => simp
  | cons c l ih =>
    have h := ih (min a c)
    simp only [List.foldl_cons]
    rcases List.mem_cons.1 h with h1 | h1
    · rcases min_choice a c with hm | hm <;> rw [h1, hm] <;> simp
    · simp [h1]

theorem foldl_min_le (a : ℚ) (l : List ℚ) : ∀ y ∈ a :: l, l.foldl min a ≤ y := by
  induction l generalizing a with
  | nil => simp
  | cons c l ih =>
    intro y hy
    have hmin : l.foldl min (min a c) ≤ min a c := ih (min a c) (min a c) (by simp)
    rcases List.mem_cons.1 hy with h1 | h1
    · rw [h1]
      exact le_trans hmin (min_le_left a c)
    · rcases List.mem_cons.1 h1 with h2 | h2
      · rw [h2]
        exact le_trans hmin (min_le_right a c)
      · exact ih (min a c) y (by simp [h2])

theorem foldl_max_mem (a : ℚ) (l : List ℚ) : l.foldl max a ∈ a :: l := by
  induction l generalizing a with
  | nil => simp
  | cons c l ih =>
    have h := ih (max a c)
    simp only [List.foldl_cons]
    rcases List.mem_cons.1 h with h1 | h1
    · rcases max_choice a c with hm | hm <;> rw [h1, hm] <;> simp
    · simp [h1]

theorem le_foldl_max (a : ℚ) (l : List ℚ) : ∀ y ∈ a :: l, y ≤ l.foldl max a := by
  induction l generalizing a with
  | nil => simp
  | cons c l ih =>
    intro y hy
    have hmax : max a c ≤ l.foldl max (max a c) := ih (max a c) (max a c) (by simp)
    rcases List.mem_cons.1 hy with h1 | h1
    · rw [h1]
      exact le_trans (le_max_left a c) hmax
    · rcases List.mem_cons.1 h1 with h2 | h2
      · rw [h2]
        exact le_trans (le_max_right a c) hmax
      · exact ih (max a c) y (by simp [h2])

/-- Claim C4: On a nonempty day the end-of-day summary returns the
arithmetic mean `sum/len`, an element that is a lower bound (the
minimum) and an element that is an upper bound (the maximum); the
spec's example `[70, 72, 68] ↦ (mean 70, min 68, max 72)` holds; and on
zero readings the computation fails with `EmptyInputError` instead of
returning a sentinel. -/
theorem eod_summary_mean_min_max (xs : List ℚ) (h : xs ≠ []) :
    (∃ m mn mx, summarize xs = .ok (m, mn, mx) ∧
      m = xs.sum / (xs.length : ℚ) ∧
      mn ∈ xs ∧ (∀ y ∈ xs, mn ≤ y) ∧
      mx ∈ xs ∧ (∀ y ∈ xs, y ≤ mx)) ∧
    summarize ([70, 72, 68] : List ℚ) = .ok (70, 68, 72) ∧
    summarize ([] : List ℚ) = .error .emptyInput := by
  refine ⟨?_, ?_, rfl⟩
  · match xs, h with
    | x :: rest, _ =>
      exact ⟨_, _, _, rfl, rfl, foldl_min_mem x rest,
        foldl_min_le x rest, foldl_max_mem x rest, le_foldl_max x rest⟩
  · show Except.ok (((70 : ℚ) + (72 + (68 + 0))) / ((3 : ℕ) : ℚ),
      List.foldl min 70 [72, 68], List.foldl max 70 [72, 68]) = _
    norm_num [min_def, max_def]

/-- Witness for C4 at the spec's example list. -/
theorem eod_summary_mean_min_max_witness :
    (∃ m mn mx, summarize ([70, 72, 68] : List ℚ) = .ok (m, mn, mx) ∧
      m = ([70, 72, 68] : List ℚ).sum / (([70, 72, 68] : List ℚ).length : ℚ) ∧
      mn ∈ ([70, 72, 68] : List ℚ) ∧ (∀ y ∈ ([70, 72, 68] : List ℚ), mn ≤ y) ∧
      mx ∈ ([70, 72, 68] : List ℚ) ∧ (∀ y ∈ ([70, 72, 68] : List ℚ), y ≤ mx)) ∧
    summarize ([70, 72, 68] : List ℚ) = .ok (70, 68, 72) ∧
    summarize ([] : List ℚ) = .error .emptyInput :=
  eod_summary_mean_min_max [70, 72, 68] (by simp)

/-! ## Python string primitives

The log writer and parser work on Python strings; they are embedded as
`List Char`.  `splitSub` is Python's `str.split(sep)` (non-overlapping,
leftmost-first, `sep` nonempty); `containsSub` is Python's `sub in s`;
`trimChars` is the whitespace stripping performed by `float(...)`. -/

/-- Python's `s.startswith(pat)` on character lists. -/
def isPre : List Char → List Char → Bool
  | [], _ => true
  | _ :: _, [] => false
  | a :: as, b :: bs => a = b && isPre as bs

/-- Python's `pat in s` substring test. -/
def containsSub (pat : List Char) : List Char → Bool
  | [] => decide (pat = [])
  | c :: cs => isPre pat (c :: cs) || containsSub pat cs

/-- Python's `s.split(sep)` for a single-character separator. -/
def splitCh (sep : Char) : List Char → List (List Char)
  | [] => [[]]
  | c :: cs =>
    if c = sep then [] :: splitCh sep cs
    else
      match splitCh sep cs with
      | [] => [[c]]
      | g :: gs => (c :: g) :: gs

/-- Python's `s.split(sep)` for a nonempty multi-character separator:
split at each leftmost-first, non-overlapping occurrence of `sep`.  The
`fuel` argument makes the recursion structural; `splitSub` below always
supplies enough fuel, so the `fuel = 0` fallback is never reached. -/
def splitSubF (pat : List Char) : ℕ → List Char → List (List Char)
  | _, [] => [[]]
  | 0, s => [s]
  | fuel + 1, c :: cs =>
    if pat ≠ [] ∧ isPre pat (c :: cs) then
      [] :: splitSubF pat fuel (List.drop (pat.length - 1) cs)
    else
      match splitSubF pat fuel cs with
      | [] => [[c]]
      | g :: gs => (c :: g) :: gs

/-- Python's `s.split(sep)` for a nonempty multi-character separator. -/
def splitSub (pat : List Char) (s : List Char) : List (List Char) :=
  splitSubF pat s.length s

/-- The whitespace class stripped by Python's `float(str)`. -/
def isSpaceCh (c : Char) : Bool :=
  c = ' ' || c = '\t' || c = '\n' || c = '\r' || c = '\x0b' || c = '\x0c'

/-- Strip leading and trailing whitespace. -/
def trimChars (s : List Char) : List Char :=
  ((s.dropWhile isSpaceCh).reverse.dropWhile isSpaceCh).reverse

/-- Numeric value of a decimal digit character. -/
def digitVal (c : Char) : ℕ := c.toNat - 48

/-- Value of a most-significant-first string of decimal digits. -/
def digitsVal (s : List Char) : ℕ := s.foldl (fun a c => 10 * a + digitVal c) 0

/-- Decimal rendering of a natural number (what Python's `%d` and the
integer part of `repr(float)` produce). -/
def natChars (n : ℕ) : List Char :=
  if n = 0 then ['0'] else ((Nat.digits 10 n).map Nat.digitChar).reverse

/-- Rendering `natChars` left-padded with zeros to width `k` (Python's `%0kd`,
used by `logging` for the date/time fields and the milliseconds). -/
def padChars (k n : ℕ) : List Char :=
  List.replicate (k - (natChars n).length) '0' ++ natChars n

/-- Parse a nonempty all-digit string (the per-field acceptance of
`datetime.strptime` on `%Y`/`%m`/`%d`/`%H`/`%M`/`%S`). -/
def parseNat (s : List Char) : Option ℕ :=
  if s ≠ [] ∧ s.all Char.isDigit then some (digitsVal s) else none

/-- The unsigned part of Python's `float(str)` on plain decimal
notation: digits with at most one point, at least one digit. -/
def parseUnsigned (s : List Char) : Option ℚ :=
  match splitCh '.' s with
  | [i] =>
    if i ≠ [] ∧ i.all Char.isDigit then some ((digitsVal i : ℚ)) else none
  | [i, f] =>
    if (i ≠ [] ∨ f ≠ []) ∧ i.all Char.isDigit ∧ f.all Char.isDigit then
      some ((digitsVal i : ℚ) + (digitsVal f : ℚ) / (10 : ℚ) ^ f.length)
    else none
  | _ => none

/-- Sign handling of Python's `float(str)` after stripping. -/
def parseSigned (s : List Char) : Option ℚ :=
  match s with
  | '-' :: rest => (parseUnsigned rest).map (fun q => -q)
  | '+' :: rest => parseUnsigned rest
  | _ => parseUnsigned s

/-- Python's `float(str)` restricted to plain decimal notation (the
only notation the monitor's writer emits; exponent and inf/nan forms
are out of the embedded fragment and are rejected). -/
def parseFloat (s : List Char) : Option ℚ := parseSigned (trimChars s)

/-! ## Log line format and parser
(src/main.py lines 70-71 and 110; src/utils.py `read_logfile`, lines
35-56) -/

/-- A wall-clock timestamp as rendered by `logging`'s default
`asctime`: `YYYY-MM-DD HH:MM:SS` fields. -/
structure DateTime where
  year : ℕ
  month : ℕ
  day : ℕ
  hour : ℕ
  minute : ℕ
  second : ℕ
  deriving DecidableEq

/-- An exact decimal number `(-1)^neg * (ip + fd / 10^fp)`: the value
and rendering of a Python float whose `repr` is plain decimal with `fp`
fractional digits. -/
structure Decimal where
  neg : Bool
  ip : ℕ
  fp : ℕ
  fd : ℕ
  deriving DecidableEq

/-- The rational value of a `Decimal`. -/
def Decimal.val (d : Decimal) : ℚ :=
  (if d.neg then -1 else 1) * ((d.ip : ℚ) + (d.fd : ℚ) / (10 : ℚ) ^ d.fp)

/-- Rendering `repr` of the float: optional sign, integer digits, point,
`fp` fractional digits. -/
def decChars (d : Decimal) : List Char :=
  (if d.neg then ['-'] else []) ++ natChars d.ip ++ '.' :: padChars d.fp d.fd

/-- One reading as the monitor writes it: timestamp (with
milliseconds), temperature (°F) and humidity, both plain decimals. -/
structure Reading where
  dt : DateTime
  ms : ℕ
  temp : Decimal
  hum : Decimal

/-- The separator `" - INFO - "` of the log format
`'%(asctime)s - %(levelname)s - %(message)s'` at level INFO. -/
def infoSep : List Char := [' ', '-', ' ', 'I', 'N', 'F', 'O', ' ', '-', ' ']

/-- The temperature label written by main.py line 110. -/
def tempLabel : List Char := "Temperature (˚F)".data

/-- The humidity label (with its leading space) written after the
semicolon by main.py line 110. -/
def humLabel : List Char := " Humidity (%)".data

/-- The `asctime` timestamp `YYYY-MM-DD HH:MM:SS` (zero-padded). -/
def dtChars (t : DateTime) : List Char :=
  padChars 4 t.year ++ '-' :: padChars 2 t.month ++ '-' :: padChars 2 t.day ++
    ' ' :: padChars 2 t.hour ++ ':' :: padChars 2 t.minute ++
    ':' :: padChars 2 t.second

/-- The full `asctime` stamp `YYYY-MM-DD HH:MM:SS,mmm`. -/
def stampChars (t : DateTime) (ms : ℕ) : List Char :=
  dtChars t ++ ',' :: padChars 3 ms

/-- One log line as written by the handler installed in
`Monitor.get_new_logger` (format `'%(asctime)s - %(levelname)s -
%(message)s'`) for the INFO message of main.py line 110, including the
newline appended by the file handler. -/
def writeLine (r : Reading) : List Char :=
  stampChars r.dt r.ms ++ infoSep ++
    tempLabel ++ ':' :: ' ' :: decChars r.temp ++
    ';' :: humLabel ++ ':' :: ' ' :: decChars r.hum ++ ['\n']

/-- The single error kind of the parser: every malformed-line failure
in `read_logfile` is a Python `ValueError` (tuple-unpacking mismatch,
`float(...)` failure, or `strptime` failure); the spec calls it
`ParseError`. -/
inductive ParseError where
  | valueError
  deriving DecidableEq

/-- The Gregorian leap-year rule used by `datetime`'s calendar
validation. -/
def isLeapYear (y : ℕ) : Bool :=
  (y % 4 = 0 && !(y % 100 = 0)) || y % 400 = 0

/-- Number of days in a month, as `datetime`'s constructor validates
the day field. -/
def daysInMonth (y m : ℕ) : ℕ :=
  if m = 2 then (if isLeapYear y then 29 else 28)
  else if m = 4 ∨ m = 6 ∨ m = 9 ∨ m = 11 then 30
  else 31

/-- Model of `datetime.strptime(ts, "%Y-%m-%d %H:%M:%S")` (utils.py
line 50): split at the format's literal separators into six numeric
fields, then apply strptime's per-directive acceptance (`%Y` exactly
four digits, `%m %d %H %M %S` at most two) and the `datetime`
constructor's validation (year in `MINYEAR..MAXYEAR`, month 1-12, day
within the month's calendar length, hour below 24, minute and second
below 60 — `strptime`'s regex tolerates leap seconds 60-61 but the
`datetime` constructor then raises, so they are rejected here too). -/
def parseDateTime (s : List Char) : Option DateTime :=
  match splitCh ' ' s with
  | [dPart, tPart] =>
    match splitCh '-' dPart, splitCh ':' tPart with
    | [ys, mos, das], [hs, mis, ss] =>
      match parseNat ys, parseNat mos, parseNat das,
          parseNat hs, parseNat mis, parseNat ss with
      | some y, some mo, some da, some h, some mi, some se =>
        if ys.length = 4 ∧ mos.length ≤ 2 ∧ das.length ≤ 2 ∧ hs.length ≤ 2 ∧
            mis.length ≤ 2 ∧ ss.length ≤ 2 ∧
            1 ≤ y ∧ y ≤ 9999 ∧ 1 ≤ mo ∧ mo ≤ 12 ∧
            1 ≤ da ∧ da ≤ daysInMonth y mo ∧ h ≤ 23 ∧ mi ≤ 59 ∧ se ≤ 59
        then some ⟨y, mo, da, h, mi, se⟩
        else none
      | _, _, _, _, _, _ => none
    | _, _ => none
  | _ => none

/-- The per-line body of `read_logfile` (utils.py lines 40-55).
`ok none` = the line carries no `INFO`/`Temperature` markers and is
skipped; `ok (some ...)` = a parsed reading, the timestamp being the
`strptime` result paired with the `timedelta(milliseconds=float(ms))`
offset; `error` = a recognized data line that is malformed, on which
Python raises. -/
def parseLine (line : List Char) :
    Except ParseError (Option ((DateTime × ℚ) × ℚ × ℚ)) :=
  if containsSub "INFO".data line && containsSub "Temperature".data line then
    match splitCh ';' line with
    | [a, humPart] =>
      match splitSub infoSep a with
      | [tsStr, tempPart] =>
        match splitCh ':' tempPart with
        | [tlabel, tempStr] =>
          match parseFloat tempStr with
          | some t0 =>
            let t := if containsSub ['C'] tlabel then t0 * 9 / 5 + 32 else t0
            match splitCh ':' humPart with
            | [_, humStr] =>
              match parseFloat humStr with
              | some hum =>
                match splitCh ',' tsStr with
                | [ts1, msStr] =>
                  match parseDateTime ts1, parseFloat msStr with
                  | some dtv, some ms => .ok (some ((dtv, ms), t, hum))
                  | _, _ => .error .valueError
                | _ => .error .valueError
              | none => .error .valueError
            | _ => .error .valueError
          | none => .error .valueError
        | _ => .error .valueError
      | _ => .error .valueError
    | _ => .error .valueError
  else
    .ok none

/-- Model of `read_logfile` (utils.py lines 35-56) over the lines of a file:
accumulates the three parallel lists `times`, `temps`, `hums`; any
malformed recognized line raises, so the whole read fails. -/
def read_logfile :
    List (List Char) → Except ParseError (List (DateTime × ℚ) × List ℚ × List ℚ)
  | [] => .ok ([], [], [])
  | l :: ls =>
    match parseLine l with
    | .error e => .error e
    | .ok none => read_logfile ls
    | .ok (some (ts, t, hum)) =>
      match read_logfile ls with
      | .error e => .error e
      | .ok (tss, tps, hs) => .ok (ts :: tss, t :: tps, hum :: hs)

/-! ### Laws of the string primitives -/

theorem splitCh_ne_nil (sep : Char) (s : List Char) : splitCh sep s ≠ [] := by
  induction s with
  | nil => simp [splitCh]
  | cons c cs ih =>
    rw [splitCh]
    split
    · simp
    · cases h : splitCh sep cs with
      | nil => simp
      | cons g gs => simp

theorem splitCh_no_sep (sep : Char) (s : List Char) (h : sep ∉ s) :
    splitCh sep s = [s] := by
  induction s with
  | nil => rfl
  | cons c cs ih =>
    have hc : c ≠ sep := fun he => h (he ▸ List.mem_cons_self c cs)
    have hcs : sep ∉ cs := fun hm => h (List.mem_cons_of_mem c hm)
    rw [splitCh, if_neg hc, ih hcs]

theorem splitCh_append (sep : Char) (x y : List Char) (h : sep ∉ x) :
    splitCh sep (x ++ sep :: y) = x :: splitCh sep y := by
  induction x with
  | nil => simp [splitCh]
  | cons c x2 ih =>
    have hc : c ≠ sep := fun he => h (he ▸ List.mem_cons_self c x2)
    have hx2 : sep ∉ x2 := fun hm => h (List.mem_cons_of_mem c hm)
    rw [List.cons_append, splitCh, if_neg hc, ih hx2]

theorem isPre_append_self (p t : List Char) : isPre p (p ++ t) = true := by
  induction p with
  | nil => rfl
  | cons a as ih => simp [isPre, ih]

theorem isPre_getElem (p l : List Char) (h : isPre p l = true) (j : ℕ)
    (hj : j < p.length) : l[j]? = p[j]? := by
  induction p generalizing l j with
  | nil => simp at hj
  | cons a as ih =>
    cases l with
    | nil => simp [isPre] at h
    | cons b bs =>
      rw [isPre, Bool.and_eq_true, decide_eq_true_eq] at h
      cases j with
      | zero => simp [h.1]
      | succ k =>
        simp only [List.getElem?_cons_succ]
        exact ih bs (h.2) k (by simpa using hj)

theorem mem_of_isPre (p l : List Char) (h : isPre p l = true) :
    ∀ c ∈ p, c ∈ l := by
  induction p generalizing l with
  | nil => simp
  | cons a as ih =>
    cases l with
    | nil => simp [isPre] at h
    | cons b bs =>
      rw [isPre, Bool.and_eq_true, decide_eq_true_eq] at h
      intro c hc
      rcases List.mem_cons.1 hc with h1 | h1
      · exact h1 ▸ h.1 ▸ List.mem_cons_self b bs
      · exact List.mem_cons_of_mem b (ih bs h.2 c h1)

theorem mem_of_containsSub (pat s : List Char) (h : containsSub pat s = true) :
    ∀ c ∈ pat, c ∈ s := by
  induction s with
  | nil =>
    rw [containsSub, decide_eq_true_eq] at h
    subst h
    simp
  | cons b bs ih =>
    rw [containsSub, Bool.or_eq_true] at h
    rcases h with h | h
    · exact mem_of_isPre pat (b :: bs) h
    · exact fun c hc => List.mem_cons_of_mem b (ih h c hc)

theorem containsSub_eq_false (pat s : List Char) (c : Char) (hc : c ∈ pat)
    (hs : c ∉ s) : containsSub pat s = false := by
  cases h : containsSub pat s with
  | false => rfl
  | true => exact absurd (mem_of_containsSub pat s h c hc) hs

theorem containsSub_of_isPre (pat s : List Char) (h : isPre pat s = true) :
    containsSub pat s = true := by
  cases s with
  | nil =>
    cases pat with
    | nil => rfl
    | cons a as => simp [isPre] at h
  | cons c cs => simp [containsSub, h]

theorem containsSub_cons (pat : List Char) (c : Char) (s : List Char)
    (h : containsSub pat s = true) : containsSub pat (c :: s) = true := by
  rw [containsSub, h]
  simp

theorem containsSub_append_pat (pat x y : List Char) :
    containsSub pat (x ++ pat ++ y) = true := by
  induction x with
  | nil => simpa using containsSub_of_isPre pat (pat ++ y) (isPre_append_self pat y)
  | cons b bs ih =>
    have h : (b :: bs) ++ pat ++ y = b :: (bs ++ pat ++ y) := by simp
    rw [h]
    exact containsSub_cons pat b (bs ++ pat ++ y) ih

theorem splitSubF_irrel (pat : List Char) (f1 f2 : ℕ) (s : List Char)
    (h1 : s.length ≤ f1) (h2 : s.length ≤ f2) :
    splitSubF pat f1 s = splitSubF pat f2 s := by
  induction f1 generalizing s f2 with
  | zero =>
    cases s with
    | nil => cases f2 <;> rfl
    | cons c cs => simp at h1
  | succ f ih =>
    cases s with
    | nil => cases f2 <;> rfl
    | cons c cs =>
      cases f2 with
      | zero => simp at h2
      | succ g =>
        rw [splitSubF, splitSubF]
        have hd1 : (List.drop (pat.length - 1) cs).length ≤ f := by
          simp only [List.length_drop]
          simp only [List.length_cons] at h1
          omega
        have hd2 : (List.drop (pat.length - 1) cs).length ≤ g := by
          simp only [List.length_drop]
          simp only [List.length_cons] at h2
          omega
        have hc1 : cs.length ≤ f := by simp only [List.length_cons] at h1; omega
        have hc2 : cs.length ≤ g := by simp only [List.length_cons] at h2; omega
        rw [ih g (List.drop (pat.length - 1) cs) hd1 hd2, ih g cs hc1 hc2]

theorem splitSubF_no_occ (pat : List Char) (f : ℕ) (s : List Char)
    (hf : s.length ≤ f) (h : containsSub pat s = false) :
    splitSubF pat f s = [s] := by
  induction f generalizing s with
  | zero =>
    cases s with
    | nil => rfl
    | cons c cs => simp at hf
  | succ f ih =>
    cases s with
    | nil => rfl
    | cons c cs =>
      rw [containsSub, Bool.or_eq_false_iff] at h
      rw [splitSubF, if_neg (by simp [h.1])]
      have hcs : cs.length ≤ f := by
        simp only [List.length_cons] at hf
        omega
      rw [ih cs hcs h.2]

theorem splitSub_no_occ (pat s : List Char) (h : containsSub pat s = false) :
    splitSub pat s = [s] :=
  splitSubF_no_occ pat s.length s le_rfl h

theorem splitSubF_append (pat : List Char) (hpat : pat ≠ []) (f : ℕ)
    (x y : List Char) (hf : (x ++ pat ++ y).length ≤ f)
    (hocc : ∀ n < x.length, isPre pat (List.drop n (x ++ pat ++ y)) = false) :
    splitSubF pat f (x ++ pat ++ y) = x :: splitSub pat y := by
  induction x generalizing f with
  | nil =>
    cases pat with
    | nil => exact absurd rfl hpat
    | cons p ps =>
      cases f with
      | zero => simp at hf
      | succ g =>
        have hform : ([] : List Char) ++ (p :: ps) ++ y = p :: (ps ++ y) := by simp
        rw [hform, splitSubF,
          if_pos ⟨hpat, by rw [show p :: (ps ++ y) = (p :: ps) ++ y from rfl]
                           exact isPre_append_self (p :: ps) y⟩]
        have hd : List.drop ((p :: ps).length - 1) (ps ++ y) = y := by
          rw [show (p :: ps).length - 1 = ps.length from by simp]
          exact List.drop_left ps y
        rw [hd]
        have hy : y.length ≤ g := by
          rw [hform] at hf
          simp only [List.length_cons, List.length_append] at hf
          omega
        rw [splitSubF_irrel (p :: ps) g y.length y hy le_rfl]
        rfl
  | cons c x2 ih =>
    cases f with
    | zero => simp at hf
    | succ g =>
      have hform : (c :: x2) ++ pat ++ y = c :: (x2 ++ pat ++ y) := by simp
      have h0 := hocc 0 (by simp)
      rw [hform] at h0 ⊢
      simp only [List.drop_zero] at h0
      rw [splitSubF, if_neg (by
        simp only [List.append_assoc] at h0
        simp [h0])]
      have hg : (x2 ++ pat ++ y).length ≤ g := by
        rw [hform] at hf
        simp only [List.length_cons] at hf
        omega
      have hocc2 : ∀ n < x2.length, isPre pat (List.drop n (x2 ++ pat ++ y)) = false := by
        intro n hn
        have := hocc (n + 1) (by simp; omega)
        rw [hform] at this
        simpa using this
      rw [ih g hg hocc2]

theorem splitSub_append (pat : List Char) (hpat : pat ≠ []) (x y : List Char)
    (hocc : ∀ n < x.length, isPre pat (List.drop n (x ++ pat ++ y)) = false) :
    splitSub pat (x ++ pat ++ y) = x :: splitSub pat y :=
  splitSubF_append pat hpat (x ++ pat ++ y).length x y le_rfl hocc

/-! ### Digit strings -/

theorem digitVal_digitChar (d : ℕ) (h : d < 10) :
    digitVal (Nat.digitChar d) = d := by
  interval_cases d <;> rfl

theorem digitChar_isDigit (d : ℕ) (h : d < 10) :
    (Nat.digitChar d).isDigit = true := by
  interval_cases d <;> rfl

theorem foldl_digitVal (ds : List ℕ) (hds : ∀ d ∈ ds, d < 10) (a : ℕ) :
    List.foldl (fun acc c => 10 * acc + digitVal c) a ((ds.map Nat.digitChar).reverse)
      = a * 10 ^ ds.length + Nat.ofDigits 10 ds := by
  induction ds generalizing a with
  | nil => simp [Nat.ofDigits_nil]
  | cons d ds2 ih =>
    simp only [List.map_cons, List.reverse_cons, List.foldl_append, List.foldl_cons,
      List.foldl_nil]
    rw [ih (fun e he => hds e (List.mem_cons_of_mem d he)) a,
      digitVal_digitChar d (hds d (List.mem_cons_self d ds2)),
      Nat.ofDigits_cons]
    simp only [List.length_cons]
    ring

theorem digitsVal_natChars (n : ℕ) : digitsVal (natChars n) = n := by
  by_cases h : n = 0
  · subst h; rfl
  · rw [natChars, if_neg h]
    unfold digitsVal
    rw [foldl_digitVal (Nat.digits 10 n)
      (fun d hd => Nat.digits_lt_base (by norm_num) hd) 0,
      Nat.ofDigits_digits]
    simp

theorem digitsVal_replicate_zero (j : ℕ) (t : List Char) :
    digitsVal (List.replicate j '0' ++ t) = digitsVal t := by
  induction j with
  | zero => rfl
  | succ k ih =>
    rw [List.replicate_succ]
    unfold digitsVal at ih ⊢
    simpa using ih

theorem natChars_ne_nil (n : ℕ) : natChars n ≠ [] := by
  by_cases h : n = 0
  · subst h; simp [natChars]
  · rw [natChars, if_neg h]
    simp [Nat.digits_ne_nil_iff_ne_zero.mpr h]

theorem natChars_all_digit (n : ℕ) : ∀ c ∈ natChars n, c.isDigit = true := by
  by_cases h : n = 0
  · subst h; intro c hc; simp [natChars] at hc; subst hc; rfl
  · rw [natChars, if_neg h]
    intro c hc
    rw [List.mem_reverse, List.mem_map] at hc
    obtain ⟨d, hd, rfl⟩ := hc
    exact digitChar_isDigit d (Nat.digits_lt_base (by norm_num) hd)

theorem natChars_length_le (k n : ℕ) (hk : 1 ≤ k) (hn : n < 10 ^ k) :
    (natChars n).length ≤ k := by
  by_cases h : n = 0
  · subst h; simpa [natChars] using hk
  · rw [natChars, if_neg h]
    simp only [List.length_reverse, List.length_map]
    by_contra hgt
    push_neg at hgt
    have h1 : 10 ^ (k + 1) ≤ 10 ^ (Nat.digits 10 n).length :=
      Nat.pow_le_pow_right (by norm_num) hgt
    have h2 : 10 ^ (Nat.digits 10 n).length ≤ 10 * n :=
      Nat.base_pow_length_digits_le 10 n (by norm_num) h
    have h3 : 10 * 10 ^ k ≤ 10 * n := by
      calc 10 * 10 ^ k = 10 ^ (k + 1) := by ring
      _ ≤ 10 ^ (Nat.digits 10 n).length := h1
      _ ≤ 10 * n := h2
    have h4 : 10 ^ k ≤ n := Nat.le_of_mul_le_mul_left h3 (by norm_num)
    omega

theorem padChars_length (k n : ℕ) (hk : 1 ≤ k) (hn : n < 10 ^ k) :
    (padChars k n).length = k := by
  have h := natChars_length_le k n hk hn
  simp only [padChars, List.length_append, List.length_replicate]
  omega

theorem padChars_ne_nil (k n : ℕ) : padChars k n ≠ [] := by
  intro h
  rw [padChars, List.append_eq_nil] at h
  exact natChars_ne_nil n h.2

theorem padChars_all_digit (k n : ℕ) : ∀ c ∈ padChars k n, c.isDigit = true := by
  intro c hc
  rw [padChars, List.mem_append] at hc
  rcases hc with hc | hc
  · rw [List.eq_of_mem_replicate hc]; rfl
  · exact natChars_all_digit n c hc

theorem digitsVal_padChars (k n : ℕ) : digitsVal (padChars k n) = n := by
  rw [padChars, digitsVal_replicate_zero, digitsVal_natChars]

theorem parseNat_padChars (k n : ℕ) : parseNat (padChars k n) = some n := by
  rw [parseNat, if_pos ⟨padChars_ne_nil k n,
    List.all_eq_true.mpr (fun c hc => padChars_all_digit k n c hc)⟩,
    digitsVal_padChars]

/-! ### Character classes and whitespace stripping -/

theorem not_mem_of_all_digit (l : List Char) (hall : ∀ c ∈ l, c.isDigit = true)
    (e : Char) (he : e.isDigit = false) : e ∉ l := by
  intro hm
  rw [hall e hm] at he
  cases he

theorem isSpaceCh_false_of_isDigit (c : Char) (h : c.isDigit = true) :
    isSpaceCh c = false := by
  cases hs : isSpaceCh c
  · rfl
  · exfalso
    have hd : c = ' ' ∨ c = '\t' ∨ c = '\n' ∨ c = '\r' ∨ c = '\x0b' ∨ c = '\x0c' := by
      rw [isSpaceCh] at hs
      simp only [Bool.or_eq_true, decide_eq_true_eq] at hs
      tauto
    rcases hd with rfl | rfl | rfl | rfl | rfl | rfl <;> exact absurd h (by decide)

theorem dropWhile_space_append (a x : List Char)
    (ha : ∀ c ∈ a, isSpaceCh c = true) :
    (a ++ x).dropWhile isSpaceCh = x.dropWhile isSpaceCh := by
  induction a with
  | nil => rfl
  | cons c a2 ih =>
    rw [List.cons_append, List.dropWhile_cons,
      if_pos (ha c (List.mem_cons_self c a2))]
    exact ih (fun e he => ha e (List.mem_cons_of_mem c he))

theorem dropWhile_space_of_all (b : List Char) (hb : ∀ c ∈ b, isSpaceCh c = true) :
    b.dropWhile isSpaceCh = [] := by
  have h := dropWhile_space_append b [] hb
  simpa using h

theorem dropWhile_eq_self_of_no_space (x : List Char)
    (hx : ∀ c ∈ x, isSpaceCh c = false) : x.dropWhile isSpaceCh = x := by
  cases x with
  | nil => rfl
  | cons c x2 =>
    rw [List.dropWhile_cons, if_neg (by simp [hx c (List.mem_cons_self c x2)])]

theorem trimChars_space_append (a x b : List Char)
    (ha : ∀ c ∈ a, isSpaceCh c = true) (hb : ∀ c ∈ b, isSpaceCh c = true)
    (hx : ∀ c ∈ x, isSpaceCh c = false) :
    trimChars (a ++ x ++ b) = x := by
  unfold trimChars
  rw [List.append_assoc, dropWhile_space_append a (x ++ b) ha]
  cases x with
  | nil =>
    simp only [List.nil_append]
    rw [dropWhile_space_of_all b hb]
    rfl
  | cons c x2 =>
    rw [List.cons_append, List.dropWhile_cons,
      if_neg (by simp [hx c (List.mem_cons_self c x2)])]
    rw [show c :: (x2 ++ b) = (c :: x2) ++ b from rfl, List.reverse_append,
      dropWhile_space_append b.reverse (c :: x2).reverse
        (fun e he => hb e (List.mem_reverse.1 he)),
      dropWhile_eq_self_of_no_space (c :: x2).reverse
        (fun e he => hx e (List.mem_reverse.1 he)),
      List.reverse_reverse]

theorem trimChars_no_space (x : List Char)
    (hx : ∀ c ∈ x, isSpaceCh c = false) : trimChars x = x := by
  have h := trimChars_space_append [] x [] (by simp) (by simp) hx
  simpa using h

/-! ### Round trip for numbers -/

theorem decChars_classes (d : Decimal) :
    ∀ c ∈ decChars d, c.isDigit = true ∨ c = '-' ∨ c = '.' := by
  intro c hc
  rw [decChars] at hc
  rcases List.mem_append.1 hc with h1 | h1
  · rcases List.mem_append.1 h1 with h2 | h2
    · cases hneg : d.neg
      · rw [hneg] at h2
        simp at h2
      · rw [hneg] at h2
        simp at h2
        right; left
        exact h2
    · exact Or.inl (natChars_all_digit d.ip c h2)
  · rcases List.mem_cons.1 h1 with h2 | h2
    · right; right; exact h2
    · exact Or.inl (padChars_all_digit d.fp d.fd c h2)

theorem decChars_no_space (d : Decimal) :
    ∀ c ∈ decChars d, isSpaceCh c = false := by
  intro c hc
  rcases decChars_classes d c hc with h | h | h
  · exact isSpaceCh_false_of_isDigit c h
  · rw [h]; rfl
  · rw [h]; rfl

theorem parseUnsigned_decimal (ip fp fd : ℕ) (hfp : 1 ≤ fp) (hfd : fd < 10 ^ fp) :
    parseUnsigned (natChars ip ++ '.' :: padChars fp fd) =
      some ((ip : ℚ) + (fd : ℚ) / (10 : ℚ) ^ fp) := by
  have hdot1 : '.' ∉ natChars ip :=
    not_mem_of_all_digit (natChars ip) (natChars_all_digit ip) '.' (by decide)
  have hdot2 : '.' ∉ padChars fp fd :=
    not_mem_of_all_digit (padChars fp fd) (padChars_all_digit fp fd) '.' (by decide)
  have hsplit : splitCh '.' (natChars ip ++ '.' :: padChars fp fd) =
      [natChars ip, padChars fp fd] := by
    rw [splitCh_append '.' (natChars ip) (padChars fp fd) hdot1,
      splitCh_no_sep '.' (padChars fp fd) hdot2]
  simp only [parseUnsigned, hsplit]
  rw [if_pos ⟨Or.inl (natChars_ne_nil ip),
    List.all_eq_true.mpr (natChars_all_digit ip),
    List.all_eq_true.mpr (padChars_all_digit fp fd)⟩,
    digitsVal_natChars, digitsVal_padChars, padChars_length fp fd hfp hfd]

theorem parseSigned_not_sign (c : Char) (cs : List Char) (h1 : c ≠ '-')
    (h2 : c ≠ '+') : parseSigned (c :: cs) = parseUnsigned (c :: cs) := by
  unfold parseSigned
  split
  · next rest heq =>
    rw [List.cons.injEq] at heq
    exact absurd heq.1 h1
  · next rest heq =>
    rw [List.cons.injEq] at heq
    exact absurd heq.1 h2
  · rfl

/-- The value of a valid `Decimal` is recovered by `float(...)` from its
rendering. -/
theorem parseSigned_decChars (d : Decimal) (hfp : 1 ≤ d.fp)
    (hfd : d.fd < 10 ^ d.fp) : parseSigned (decChars d) = some d.val := by
  cases hneg : d.neg with
  | true =>
    have hform : decChars d = '-' :: (natChars d.ip ++ '.' :: padChars d.fp d.fd) := by
      rw [decChars, hneg]
      rfl
    rw [hform]
    show (parseUnsigned (natChars d.ip ++ '.' :: padChars d.fp d.fd)).map (fun q => -q) = _
    rw [parseUnsigned_decimal d.ip d.fp d.fd hfp hfd]
    rw [Decimal.val, hneg]
    simp [neg_one_mul]
  | false =>
    have hform : decChars d = natChars d.ip ++ '.' :: padChars d.fp d.fd := by
      rw [decChars, hneg]
      rfl
    obtain ⟨c, t, hct⟩ : ∃ c t, natChars d.ip = c :: t := by
      cases hn : natChars d.ip with
      | nil => exact absurd hn (natChars_ne_nil d.ip)
      | cons c t => exact ⟨c, t, rfl⟩
    have hcdig : c.isDigit = true :=
      natChars_all_digit d.ip c (by rw [hct]; exact List.mem_cons_self c t)
    have hform2 : decChars d = c :: (t ++ '.' :: padChars d.fp d.fd) := by
      rw [hform, hct]
      rfl
    rw [hform2, parseSigned_not_sign c _
      (fun he => by rw [he] at hcdig; exact absurd hcdig (by decide))
      (fun he => by rw [he] at hcdig; exact absurd hcdig (by decide)),
      show c :: (t ++ '.' :: padChars d.fp d.fd) =
        natChars d.ip ++ '.' :: padChars d.fp d.fd from by rw [hct]; rfl,
      parseUnsigned_decimal d.ip d.fp d.fd hfp hfd, Decimal.val, hneg]
    simp

theorem parseUnsigned_digits (x : List Char) (hne : x ≠ [])
    (hall : ∀ c ∈ x, c.isDigit = true) :
    parseUnsigned x = some ((digitsVal x : ℚ)) := by
  have hdot : '.' ∉ x := not_mem_of_all_digit x hall '.' (by decide)
  have hsplit : splitCh '.' x = [x] := splitCh_no_sep '.' x hdot
  simp only [parseUnsigned, hsplit]
  rw [if_pos ⟨hne, List.all_eq_true.mpr hall⟩]

theorem parseFloat_padChars (k n : ℕ) : parseFloat (padChars k n) = some ((n : ℕ) : ℚ) := by
  rw [parseFloat, trimChars_no_space (padChars k n)
    (fun c hc => isSpaceCh_false_of_isDigit c (padChars_all_digit k n c hc))]
  obtain ⟨c, t, hct⟩ : ∃ c t, padChars k n = c :: t := by
    cases hn : padChars k n with
    | nil => exact absurd hn (padChars_ne_nil k n)
    | cons c t => exact ⟨c, t, rfl⟩
  have hcdig : c.isDigit = true :=
    padChars_all_digit k n c (by rw [hct]; exact List.mem_cons_self c t)
  rw [hct, parseSigned_not_sign c t
    (fun he => by rw [he] at hcdig; exact absurd hcdig (by decide))
    (fun he => by rw [he] at hcdig; exact absurd hcdig (by decide)),
    ← hct, parseUnsigned_digits (padChars k n) (padChars_ne_nil k n)
      (padChars_all_digit k n), digitsVal_padChars]

theorem parseFloat_space_dec (d : Decimal) (hfp : 1 ≤ d.fp)
    (hfd : d.fd < 10 ^ d.fp) : parseFloat (' ' :: decChars d) = some d.val := by
  have hform : ' ' :: decChars d = [' '] ++ decChars d ++ [] := by simp
  rw [parseFloat, hform, trimChars_space_append [' '] (decChars d) []
    (by intro c hc; simp at hc; subst hc; rfl) (by simp) (decChars_no_space d)]
  exact parseSigned_decChars d hfp hfd

theorem parseFloat_space_dec_nl (d : Decimal) (hfp : 1 ≤ d.fp)
    (hfd : d.fd < 10 ^ d.fp) :
    parseFloat (' ' :: decChars d ++ ['\n']) = some d.val := by
  have hform : ' ' :: decChars d ++ ['\n'] = [' '] ++ decChars d ++ ['\n'] := by simp
  rw [parseFloat, hform, trimChars_space_append [' '] (decChars d) ['\n']
    (by intro c hc; simp at hc; subst hc; rfl)
    (by intro c hc; simp at hc; subst hc; rfl) (decChars_no_space d)]
  exact parseSigned_decChars d hfp hfd

/-! ### Round trip for timestamps -/

/-- The timestamps `datetime.strptime("%Y-%m-%d %H:%M:%S")` accepts:
constructor-valid year/month/calendar-day and in-range time fields. -/
def ValidDateTime (t : DateTime) : Prop :=
  1 ≤ t.year ∧ t.year ≤ 9999 ∧ 1 ≤ t.month ∧ t.month ≤ 12 ∧
    1 ≤ t.day ∧ t.day ≤ daysInMonth t.year t.month ∧
    t.hour ≤ 23 ∧ t.minute ≤ 59 ∧ t.second ≤ 59

theorem dtChars_eq (t : DateTime) :
    dtChars t =
      (padChars 4 t.year ++ '-' :: (padChars 2 t.month ++ '-' :: padChars 2 t.day))
        ++ ' ' ::
      (padChars 2 t.hour ++ ':' :: (padChars 2 t.minute ++ ':' :: padChars 2 t.second)) := by
  simp [dtChars, List.append_assoc]

theorem dtChars_classes (t : DateTime) :
    ∀ c ∈ dtChars t, c.isDigit = true ∨ c = '-' ∨ c = ':' ∨ c = ' ' := by
  intro c hc
  rw [dtChars] at hc
  simp only [List.mem_append, List.mem_cons] at hc
  rcases hc with ((((h | h | h) | h | h) | h | h) | h | h) | h | h
  · exact Or.inl (padChars_all_digit 4 t.year c h)
  · exact Or.inr (Or.inl h)
  · exact Or.inl (padChars_all_digit 2 t.month c h)
  · exact Or.inr (Or.inl h)
  · exact Or.inl (padChars_all_digit 2 t.day c h)
  · exact Or.inr (Or.inr (Or.inr h))
  · exact Or.inl (padChars_all_digit 2 t.hour c h)
  · exact Or.inr (Or.inr (Or.inl h))
  · exact Or.inl (padChars_all_digit 2 t.minute c h)
  · exact Or.inr (Or.inr (Or.inl h))
  · exact Or.inl (padChars_all_digit 2 t.second c h)

theorem daysInMonth_le (y m : ℕ) : daysInMonth y m ≤ 31 := by
  unfold daysInMonth
  split
  · split <;> norm_num
  · split <;> norm_num

theorem parseDateTime_dtChars (t : DateTime) (hv : ValidDateTime t) :
    parseDateTime (dtChars t) = some t := by
  have hnosp1 : ' ' ∉ padChars 4 t.year ++ '-' ::
      (padChars 2 t.month ++ '-' :: padChars 2 t.day) := by
    intro hm
    simp only [List.mem_append, List.mem_cons] at hm
    rcases hm with h | h | h | h | h
    · exact absurd (padChars_all_digit 4 t.year ' ' h) (by decide)
    · cases h
    · exact absurd (padChars_all_digit 2 t.month ' ' h) (by decide)
    · cases h
    · exact absurd (padChars_all_digit 2 t.day ' ' h) (by decide)
  have hnosp2 : ' ' ∉ padChars 2 t.hour ++ ':' ::
      (padChars 2 t.minute ++ ':' :: padChars 2 t.second) := by
    intro hm
    simp only [List.mem_append, List.mem_cons] at hm
    rcases hm with h | h | h | h | h
    · exact absurd (padChars_all_digit 2 t.hour ' ' h) (by decide)
    · cases h
    · exact absurd (padChars_all_digit 2 t.minute ' ' h) (by decide)
    · cases h
    · exact absurd (padChars_all_digit 2 t.second ' ' h) (by decide)
  have hsp : splitCh ' ' (dtChars t) =
      [padChars 4 t.year ++ '-' :: (padChars 2 t.month ++ '-' :: padChars 2 t.day),
        padChars 2 t.hour ++ ':' :: (padChars 2 t.minute ++ ':' :: padChars 2 t.second)] := by
    rw [dtChars_eq, splitCh_append ' ' _ _ hnosp1, splitCh_no_sep ' ' _ hnosp2]
  have hda : splitCh '-'
      (padChars 4 t.year ++ '-' :: (padChars 2 t.month ++ '-' :: padChars 2 t.day)) =
      [padChars 4 t.year, padChars 2 t.month, padChars 2 t.day] := by
    rw [splitCh_append '-' _ _ (not_mem_of_all_digit _ (padChars_all_digit 4 t.year)
        '-' (by decide)),
      splitCh_append '-' _ _ (not_mem_of_all_digit _ (padChars_all_digit 2 t.month)
        '-' (by decide)),
      splitCh_no_sep '-' _ (not_mem_of_all_digit _ (padChars_all_digit 2 t.day)
        '-' (by decide))]
  have hti : splitCh ':'
      (padChars 2 t.hour ++ ':' :: (padChars 2 t.minute ++ ':' :: padChars 2 t.second)) =
      [padChars 2 t.hour, padChars 2 t.minute, padChars 2 t.second] := by
    rw [splitCh_append ':' _ _ (not_mem_of_all_digit _ (padChars_all_digit 2 t.hour)
        ':' (by decide)),
      splitCh_append ':' _ _ (not_mem_of_all_digit _ (padChars_all_digit 2 t.minute)
        ':' (by decide)),
      splitCh_no_sep ':' _ (not_mem_of_all_digit _ (padChars_all_digit 2 t.second)
        ':' (by decide))]
  obtain ⟨hy1, hy2, hmo1, hmo2, hda1, hda2, hh, hmi, hse⟩ := hv
  have hdm := daysInMonth_le t.year t.month
  have hylen : (padChars 4 t.year).length = 4 :=
    padChars_length 4 t.year (by norm_num) (by norm_num; omega)
  have hmolen : (padChars 2 t.month).length = 2 :=
    padChars_length 2 t.month (by norm_num) (by norm_num; omega)
  have hdalen : (padChars 2 t.day).length = 2 :=
    padChars_length 2 t.day (by norm_num) (by norm_num; omega)
  have hhlen : (padChars 2 t.hour).length = 2 :=
    padChars_length 2 t.hour (by norm_num) (by norm_num; omega)
  have hmilen : (padChars 2 t.minute).length = 2 :=
    padChars_length 2 t.minute (by norm_num) (by norm_num; omega)
  have hselen : (padChars 2 t.second).length = 2 :=
    padChars_length 2 t.second (by norm_num) (by norm_num; omega)
  simp only [parseDateTime, hsp, hda, hti, parseNat_padChars]
  rw [if_pos ⟨hylen, le_of_eq hmolen, le_of_eq hdalen, le_of_eq hhlen,
    le_of_eq hmilen, le_of_eq hselen, hy1, hy2, hmo1, hmo2, hda1, hda2,
    hh, hmi, hse⟩]

theorem stampChars_classes (t : DateTime) (ms : ℕ) :
    ∀ c ∈ stampChars t ms,
      c.isDigit = true ∨ c = '-' ∨ c = ':' ∨ c = ' ' ∨ c = ',' := by
  intro c hc
  rw [stampChars] at hc
  simp only [List.mem_append, List.mem_cons] at hc
  rcases hc with h | h | h
  · rcases dtChars_classes t c h with h2 | h2 | h2 | h2
    · exact Or.inl h2
    · exact Or.inr (Or.inl h2)
    · exact Or.inr (Or.inr (Or.inl h2))
    · exact Or.inr (Or.inr (Or.inr (Or.inl h2)))
  · exact Or.inr (Or.inr (Or.inr (Or.inr h)))
  · exact Or.inl (padChars_all_digit 3 ms c h)

theorem splitCh_comma_stamp (t : DateTime) (ms : ℕ) :
    splitCh ',' (stampChars t ms) = [dtChars t, padChars 3 ms] := by
  have hnc : ',' ∉ dtChars t := by
    intro hm
    rcases dtChars_classes t ',' hm with h | h | h | h <;> cases h
  rw [stampChars, splitCh_append ',' _ _ hnc,
    splitCh_no_sep ',' _ (not_mem_of_all_digit _ (padChars_all_digit 3 ms)
      ',' (by decide))]

/-! ### Round trip for whole lines -/

theorem not_mem_decChars (d : Decimal) (e : Char) (he1 : e.isDigit = false)
    (he2 : e ≠ '-') (he3 : e ≠ '.') : e ∉ decChars d := by
  intro hm
  rcases decChars_classes d e hm with h | h | h
  · rw [h] at he1; cases he1
  · exact he2 h
  · exact he3 h

theorem not_mem_stampChars (t : DateTime) (ms : ℕ) (e : Char)
    (he1 : e.isDigit = false) (he2 : e ≠ '-') (he3 : e ≠ ':') (he4 : e ≠ ' ')
    (he5 : e ≠ ',') : e ∉ stampChars t ms := by
  intro hm
  rcases stampChars_classes t ms e hm with h | h | h | h | h
  · rw [h] at he1; cases he1
  · exact he2 h
  · exact he3 h
  · exact he4 h
  · exact he5 h

theorem infoSep_no_occ (x y : List Char) (hI : 'I' ∉ x) :
    ∀ n < x.length, isPre infoSep (List.drop n (x ++ infoSep ++ y)) = false := by
  intro n hn
  cases hp : isPre infoSep (List.drop n (x ++ infoSep ++ y))
  · rfl
  exfalso
  have h3 := isPre_getElem infoSep _ hp 3 (by decide)
  rw [List.getElem?_drop] at h3
  have hI3 : infoSep[3]? = some 'I' := rfl
  rw [hI3, List.append_assoc, List.getElem?_append] at h3
  by_cases hlt : n + 3 < x.length
  · rw [if_pos hlt] at h3
    exact hI (List.getElem?_mem h3)
  · rw [if_neg hlt] at h3
    push_neg at hlt
    have hm3 : n + 3 - x.length < 3 := by omega
    rw [List.getElem?_append, if_pos (by
      show n + 3 - x.length < infoSep.length
      change n + 3 - x.length < 10
      omega)] at h3
    set m := n + 3 - x.length with hm
    interval_cases m <;> exact absurd h3 (by decide)

/-- Well-formedness of a `Decimal` rendering: at least one fractional
digit (Python float `repr` always prints one) and the fractional value
fits its digit count. -/
def ValidDec (d : Decimal) : Prop := 1 ≤ d.fp ∧ d.fd < 10 ^ d.fp

/-- Well-formedness of a reading as the running monitor produces it:
calendar-valid timestamp, milliseconds below 1000, plain-decimal
temperature and humidity. -/
def ValidReading (r : Reading) : Prop :=
  ValidDateTime r.dt ∧ r.ms ≤ 999 ∧ ValidDec r.temp ∧ ValidDec r.hum

theorem parseLine_writeLine (r : Reading) (h : ValidReading r) :
    parseLine (writeLine r) =
      .ok (some ((r.dt, (r.ms : ℚ)), r.temp.val, r.hum.val)) := by
  obtain ⟨hdt, hms, htv, hhv⟩ := h
  have hTL : tempLabel = "Temperature".data ++ [' ', '(', '˚', 'F', ')'] := rfl
  -- named pieces of the line
  set S := stampChars r.dt r.ms with hS
  set TP := tempLabel ++ ':' :: (' ' :: decChars r.temp) with hTP
  set HP := humLabel ++ ':' :: (' ' :: (decChars r.hum ++ ['\n'])) with hHP
  have hline : writeLine r = S ++ infoSep ++ TP ++ ';' :: HP := by
    rw [writeLine, hTP, hHP]
    simp [List.append_assoc]
  -- the two marker guards
  have hgI : containsSub "INFO".data (writeLine r) = true := by
    have hfm : writeLine r =
        (S ++ [' ', '-', ' ']) ++ "INFO".data ++
          ([' ', '-', ' '] ++ (TP ++ ';' :: HP)) := by
      rw [hline]
      show S ++ infoSep ++ TP ++ ';' :: HP = _
      rw [show infoSep = [' ', '-', ' '] ++ "INFO".data ++ [' ', '-', ' '] from rfl]
      simp [List.append_assoc]
    rw [hfm]
    exact containsSub_append_pat "INFO".data (S ++ [' ', '-', ' '])
      ([' ', '-', ' '] ++ (TP ++ ';' :: HP))
  have hgT : containsSub "Temperature".data (writeLine r) = true := by
    have hfm : writeLine r =
        (S ++ infoSep) ++ "Temperature".data ++
          ([' ', '(', '˚', 'F', ')'] ++ ':' :: (' ' :: decChars r.temp) ++ ';' :: HP) := by
      rw [hline, hTP, hTL]
      simp [List.append_assoc]
    rw [hfm]
    exact containsSub_append_pat "Temperature".data (S ++ infoSep) _
  -- split at the semicolon
  have hsemiA : ';' ∉ S ++ infoSep ++ TP := by
    intro hm
    simp only [List.mem_append] at hm
    rcases hm with (hm | hm) | hm
    · exact not_mem_stampChars r.dt r.ms ';' (by decide) (by decide) (by decide)
        (by decide) (by decide) hm
    · exact absurd hm (by decide)
    · rw [hTP] at hm
      simp only [List.mem_append, List.mem_cons] at hm
      rcases hm with hm | hm | hm | hm
      · exact absurd hm (by decide)
      · exact absurd hm (by decide)
      · exact absurd hm (by decide)
      · exact not_mem_decChars r.temp ';' (by decide) (by decide) (by decide) hm
  have hsemiHP : ';' ∉ HP := by
    intro hm
    rw [hHP] at hm
    simp only [List.mem_append, List.mem_cons] at hm
    rcases hm with hm | hm | hm | hm | hm
    · exact absurd hm (by decide)
    · exact absurd hm (by decide)
    · exact absurd hm (by decide)
    · exact not_mem_decChars r.hum ';' (by decide) (by decide) (by decide) hm
    · exact absurd hm (by decide)
  have h1 : splitCh ';' (writeLine r) = [S ++ infoSep ++ TP, HP] := by
    rw [hline, splitCh_append ';' _ _ hsemiA, splitCh_no_sep ';' _ hsemiHP]
  -- split at " - INFO - "
  have hInoS : 'I' ∉ S :=
    not_mem_stampChars r.dt r.ms 'I' (by decide) (by decide) (by decide)
      (by decide) (by decide)
  have hInoTP : 'I' ∉ TP := by
    intro hm
    rw [hTP] at hm
    simp only [List.mem_append, List.mem_cons] at hm
    rcases hm with hm | hm | hm | hm
    · exact absurd hm (by decide)
    · exact absurd hm (by decide)
    · exact absurd hm (by decide)
    · exact not_mem_decChars r.temp 'I' (by decide) (by decide) (by decide) hm
  have h2 : splitSub infoSep (S ++ infoSep ++ TP) = [S, TP] := by
    rw [splitSub_append infoSep (by decide) S TP (infoSep_no_occ S TP hInoS),
      splitSub_no_occ infoSep TP
        (containsSub_eq_false infoSep TP 'I' (by decide) hInoTP)]
  -- split the temperature part at the colon
  have h3 : splitCh ':' TP = [tempLabel, ' ' :: decChars r.temp] := by
    rw [hTP, splitCh_append ':' _ _ (by decide), splitCh_no_sep ':' _ (by
      intro hm
      rcases List.mem_cons.1 hm with hm | hm
      · exact absurd hm (by decide)
      · exact not_mem_decChars r.temp ':' (by decide) (by decide) (by decide) hm)]
  have h4 : parseFloat (' ' :: decChars r.temp) = some r.temp.val :=
    parseFloat_space_dec r.temp htv.1 htv.2
  have h5 : containsSub ['C'] tempLabel = false := by decide
  -- split the humidity part at the colon
  have h6 : splitCh ':' HP = [humLabel, ' ' :: (decChars r.hum ++ ['\n'])] := by
    rw [hHP, splitCh_append ':' _ _ (by decide), splitCh_no_sep ':' _ (by
      intro hm
      rcases List.mem_cons.1 hm with hm | hm
      · exact absurd hm (by decide)
      · rcases List.mem_append.1 hm with hm | hm
        · exact not_mem_decChars r.hum ':' (by decide) (by decide) (by decide) hm
        · exact absurd hm (by decide))]
  have h7 : parseFloat (' ' :: (decChars r.hum ++ ['\n'])) = some r.hum.val :=
    parseFloat_space_dec_nl r.hum hhv.1 hhv.2
  -- timestamp
  have h8 : splitCh ',' S = [dtChars r.dt, padChars 3 r.ms] :=
    splitCh_comma_stamp r.dt r.ms
  have h9 : parseDateTime (dtChars r.dt) = some r.dt :=
    parseDateTime_dtChars r.dt hdt
  have h10 : parseFloat (padChars 3 r.ms) = some ((r.ms : ℕ) : ℚ) :=
    parseFloat_padChars 3 r.ms
  simp only [parseLine, hgI, hgT, Bool.and_self, if_true, h1, h2, h3, h4, h5,
    h6, h7, h8, h9, h10, Bool.false_eq_true, if_false]

/-- Claim C3: Round-trip law: writing any sequence of (well-formed)
readings through the monitor's log-line format and parsing the
resulting day file with `read_logfile` reconstructs exactly the same
sequence of timestamps, temperatures and humidities, in order (here
with exact equality of the embedded rationals, which is within any
floating-point tolerance). -/
theorem log_roundtrip (rs : List Reading) (h : ∀ r ∈ rs, ValidReading r) :
    read_logfile (rs.map writeLine) =
      .ok (rs.map (fun r => (r.dt, (r.ms : ℚ))),
        rs.map (fun r => r.temp.val), rs.map (fun r => r.hum.val)) := by
  induction rs with
  | nil => rfl
  | cons r rs ih =>
    simp only [List.map_cons, read_logfile,
      parseLine_writeLine r (h r (List.mem_cons_self r rs)),
      ih (fun e he => h e (List.mem_cons_of_mem r he))]

/-- Witness for C3 on a two-reading log: 68.0 °F / 50.0 % at
13:45:12,123 then 71.5 °F / 40.25 % at 13:45:13,003. -/
theorem log_roundtrip_witness :
    read_logfile
        ([⟨⟨2023, 1, 2, 13, 45, 12⟩, 123, ⟨false, 68, 1, 0⟩, ⟨false, 50, 1, 0⟩⟩,
          ⟨⟨2023, 1, 2, 13, 45, 13⟩, 3, ⟨false, 71, 1, 5⟩, ⟨false, 40, 2, 25⟩⟩].map
          writeLine) =
      .ok (([⟨⟨2023, 1, 2, 13, 45, 12⟩, 123, ⟨false, 68, 1, 0⟩, ⟨false, 50, 1, 0⟩⟩,
          ⟨⟨2023, 1, 2, 13, 45, 13⟩, 3, ⟨false, 71, 1, 5⟩, ⟨false, 40, 2, 25⟩⟩] :
            List Reading).map (fun r => (r.dt, (r.ms : ℚ))),
        ([⟨⟨2023, 1, 2, 13, 45, 12⟩, 123, ⟨false, 68, 1, 0⟩, ⟨false, 50, 1, 0⟩⟩,
          ⟨⟨2023, 1, 2, 13, 45, 13⟩, 3, ⟨false, 71, 1, 5⟩, ⟨false, 40, 2, 25⟩⟩] :
            List Reading).map (fun r => r.temp.val),
        ([⟨⟨2023, 1, 2, 13, 45, 12⟩, 123, ⟨false, 68, 1, 0⟩, ⟨false, 50, 1, 0⟩⟩,
          ⟨⟨2023, 1, 2, 13, 45, 13⟩, 3, ⟨false, 71, 1, 5⟩, ⟨false, 40, 2, 25⟩⟩] :
            List Reading).map (fun r => r.hum.val)) :=
  log_roundtrip
    [⟨⟨2023, 1, 2, 13, 45, 12⟩, 123, ⟨false, 68, 1, 0⟩, ⟨false, 50, 1, 0⟩⟩,
      ⟨⟨2023, 1, 2, 13, 45, 13⟩, 3, ⟨false, 71, 1, 5⟩, ⟨false, 40, 2, 25⟩⟩]
    (by simp [ValidReading, ValidDateTime, ValidDec, daysInMonth, isLeapYear])

/-- Claim C10: Whatever file `read_logfile` successfully reads, the three
returned lists (times, temperatures, humidities) have equal length:
each recognized data line contributes exactly one element to each. -/
theorem read_logfile_parallel_lists (ls : List (List Char))
    (ts : List (DateTime × ℚ)) (tps hs : List ℚ)
    (h : read_logfile ls = .ok (ts, tps, hs)) :
    ts.length = tps.length ∧ tps.length = hs.length := by
  induction ls generalizing ts tps hs with
  | nil =>
    rw [read_logfile, Except.ok.injEq, Prod.mk.injEq, Prod.mk.injEq] at h
    obtain ⟨h1, h2, h3⟩ := h
    rw [← h1, ← h2, ← h3]
    exact ⟨rfl, rfl⟩
  | cons l ls ih =>
    rw [read_logfile] at h
    cases hp : parseLine l with
    | error e => rw [hp] at h; cases h
    | ok o =>
      cases o with
      | none =>
        rw [hp] at h
        exact ih ts tps hs h
      | some v =>
        rw [hp] at h
        cases hr : read_logfile ls with
        | error e => rw [hr] at h; cases h
        | ok trip =>
          obtain ⟨ts2, tps2, hs2⟩ := trip
          rw [hr, Except.ok.injEq, Prod.mk.injEq, Prod.mk.injEq] at h
          obtain ⟨h1, h2, h3⟩ := h
          obtain ⟨g1, g2⟩ := ih ts2 tps2 hs2 hr
          rw [← h1, ← h2, ← h3]
          simp [g1, g2]

/-- Witness for C10: a file holding one non-data line parses to three
empty lists. -/
theorem read_logfile_parallel_lists_witness :
    ([] : List (DateTime × ℚ)).length = ([] : List ℚ).length ∧
      ([] : List ℚ).length = ([] : List ℚ).length :=
  read_logfile_parallel_lists
    ["2023-01-02 13:45:12,123 - INFO - Starting monitor. Notifying...\n".data]
    [] [] [] rfl

/-- Claim C6: The parser skips, silently and without error, every line
that is not a recognized data line (no `INFO`/`Temperature` markers);
and it fails with `ParseError` on a recognized data line that is
malformed — shown in general for a missing `;` separator, and at a
concrete line with a non-numeric temperature field — rather than
silently dropping it. -/
theorem parser_skips_nondata_raises_on_malformed :
    (∀ l ls,
      (containsSub "INFO".data l && containsSub "Temperature".data l) = false →
      parseLine l = .ok none ∧ read_logfile (l :: ls) = read_logfile ls) ∧
    (∀ l, containsSub "INFO".data l = true →
      containsSub "Temperature".data l = true →
      (splitCh ';' l).length ≠ 2 → parseLine l = .error .valueError) ∧
    parseLine
        "2023-01-02 13:45:12,123 - INFO - Temperature (˚F): abc; Humidity (%): 50.0\n".data
      = .error .valueError := by
  refine ⟨?_, ?_, rfl⟩
  · intro l ls hg
    have hp : parseLine l = .ok none := by
      simp only [parseLine, hg, Bool.false_eq_true, if_false]
    refine ⟨hp, ?_⟩
    rw [read_logfile, hp]
  · intro l hI hT hlen
    simp only [parseLine, hI, hT, Bool.and_self, if_true]
    rcases hsp : splitCh ';' l with _ | ⟨a, _ | ⟨b, _ | ⟨c, t⟩⟩⟩
    · rfl
    · rfl
    · exact absurd (by rw [hsp]; rfl : (splitCh ';' l).length = 2) hlen
    · rfl

/-- Witness for C6: the STARTING notification line (INFO but no
`Temperature`) is skipped and leaves the parse untouched; a line with
both markers but no semicolon raises. -/
theorem parser_skips_nondata_raises_on_malformed_witness :
    (parseLine "2023-01-02 13:45:12,123 - INFO - Starting monitor. Notifying...\n".data
        = .ok none ∧
      read_logfile
          ["2023-01-02 13:45:12,123 - INFO - Starting monitor. Notifying...\n".data,
            "x\n".data] =
        read_logfile ["x\n".data]) ∧
    parseLine "INFO Temperature no separators\n".data = .error .valueError := by
  refine ⟨?_, ?_⟩
  · exact parser_skips_nondata_raises_on_malformed.1
      "2023-01-02 13:45:12,123 - INFO - Starting monitor. Notifying...\n".data
      ["x\n".data] (by decide)
  · exact parser_skips_nondata_raises_on_malformed.2.1
      "INFO Temperature no separators\n".data (by decide) (by decide) (by decide)

/-- Claim C7: A data line whose temperature label carries the Celsius
marker has its value converted by `t * 9/5 + 32` (20.0 °C parses as
68.0 °F), while a `˚F`-labelled line is returned unconverted; the
humidity is untouched in both cases. -/
theorem celsius_marker_conversion :
    parseLine
        "2023-01-02 13:45:12,123 - INFO - Temperature (C): 20.0; Humidity (%): 50.0\n".data
      = .ok (some (((⟨2023, 1, 2, 13, 45, 12⟩ : DateTime), 123), 68, 50)) ∧
    parseLine
        "2023-01-02 13:45:12,123 - INFO - Temperature (˚F): 20.0; Humidity (%): 50.0\n".data
      = .ok (some (((⟨2023, 1, 2, 13, 45, 12⟩ : DateTime), 123), 20, 50)) := by
  constructor
  · have h : parseLine
        "2023-01-02 13:45:12,123 - INFO - Temperature (C): 20.0; Humidity (%): 50.0\n".data
        = .ok (some (((⟨2023, 1, 2, 13, 45, 12⟩ : DateTime), ((123 : ℕ) : ℚ)),
          (((20 : ℕ) : ℚ) + ((0 : ℕ) : ℚ) / (10 : ℚ) ^ 1) * 9 / 5 + 32,
          ((50 : ℕ) : ℚ) + ((0 : ℕ) : ℚ) / (10 : ℚ) ^ 1)) := rfl
    rw [h]
    norm_num
  · have h : parseLine
        "2023-01-02 13:45:12,123 - INFO - Temperature (˚F): 20.0; Humidity (%): 50.0\n".data
        = .ok (some (((⟨2023, 1, 2, 13, 45, 12⟩ : DateTime), ((123 : ℕ) : ℚ)),
          ((20 : ℕ) : ℚ) + ((0 : ℕ) : ℚ) / (10 : ℚ) ^ 1,
          ((50 : ℕ) : ℚ) + ((0 : ℕ) : ℚ) / (10 : ℚ) ^ 1)) := rfl
    rw [h]
    norm_num

/-! ## Daily statistics series (src/utils.py, `get_daily_stats`,
lines 101-137)

Dates are abstracted to day ordinals; the filesystem is a map from a
date to the lines of its `MM-DD-YYYY.log` file when that file exists
(the date-to-filename rendering is injective on calendar dates). -/

/-- The per-day loop of `get_daily_stats` (utils.py lines 130-135):
skip a date whose file does not exist, otherwise `read_logfile` it
(propagating its `ParseError`) and append the date and the two
`func`-reduced statistics. -/
def dailyGo (func : List ℚ → ℚ) (fs : ℕ → Option (List (List Char))) :
    List ℕ → Except ParseError (List ℕ × List ℚ × List ℚ)
  | [] => .ok ([], [], [])
  | d :: ds =>
    match fs d with
    | none => dailyGo func fs ds
    | some lines =>
      match read_logfile lines with
      | .error e => .error e
      | .ok (_, tps, hs) =>
        match dailyGo func fs ds with
        | .error e => .error e
        | .ok (dates, ts2, hs2) => .ok (d :: dates, func tps :: ts2, func hs :: hs2)

/-- Model of `get_daily_stats(func, start, n_days, root_dir)` (utils.py lines
101-137): iterate over `[start + n for n in range(n_days)]`. -/
def get_daily_stats (func : List ℚ → ℚ) (start n_days : ℕ)
    (fs : ℕ → Option (List (List Char))) :
    Except ParseError (List ℕ × List ℚ × List ℚ) :=
  dailyGo func fs ((List.range n_days).map (fun k => start + k))

theorem dailyGo_eq (func : List ℚ → ℚ) (fs : ℕ → Option (List (List Char)))
    (tss : ℕ → List (DateTime × ℚ)) (tps hs : ℕ → List ℚ)
    (hread : ∀ d lines, fs d = some lines →
      read_logfile lines = .ok (tss d, tps d, hs d))
    (ds : List ℕ) :
    dailyGo func fs ds =
      .ok (ds.filter (fun d => (fs d).isSome),
        (ds.filter (fun d => (fs d).isSome)).map (fun d => func (tps d)),
        (ds.filter (fun d => (fs d).isSome)).map (fun d => func (hs d))) := by
  induction ds with
  | nil => rfl
  | cons d ds ih =>
    cases hd : fs d with
    | none => simp [dailyGo, hd, ih, List.filter_cons]
    | some lines => simp [dailyGo, hd, hread d lines hd, ih, List.filter_cons]

/-- Claim C8: For every start date, day count and (parseable) log
directory, the daily-series computation returns entries for exactly
those dates in `[start, start + n)` whose log file exists — in
ascending date order, each entry reduced from its own date's file — and
skips absent dates entirely. -/
theorem daily_series_existing_dates (func : List ℚ → ℚ) (start n_days : ℕ)
    (fs : ℕ → Option (List (List Char)))
    (tss : ℕ → List (DateTime × ℚ)) (tps hs : ℕ → List ℚ)
    (hread : ∀ d lines, fs d = some lines →
      read_logfile lines = .ok (tss d, tps d, hs d)) :
    get_daily_stats func start n_days fs =
      .ok ((((List.range n_days).map (fun k => start + k)).filter
          (fun d => (fs d).isSome),
        ((((List.range n_days).map (fun k => start + k)).filter
          (fun d => (fs d).isSome)).map (fun d => func (tps d)),
        ((((List.range n_days).map (fun k => start + k)).filter
          (fun d => (fs d).isSome)).map (fun d => func (hs d)))))) ∧
    List.Pairwise (· < ·)
      (((List.range n_days).map (fun k => start + k)).filter
        (fun d => (fs d).isSome)) := by
  constructor
  · exact dailyGo_eq func fs tss tps hs hread _
  · exact List.Pairwise.sublist (List.filter_sublist _)
      (List.Pairwise.map _ (fun a b hab => by omega)
        (List.pairwise_lt_range n_days))

/-- Witness for C8: a 5-day window over a directory holding (empty)
files for days 0, 2 and 4 only yields exactly those three dates, in
order. -/
theorem daily_series_existing_dates_witness :
    get_daily_stats (fun l => l.sum) 0 5
        (fun d => if d = 0 ∨ d = 2 ∨ d = 4 then some [] else none) =
      .ok ((((List.range 5).map (fun k => 0 + k)).filter
          (fun d => (if d = 0 ∨ d = 2 ∨ d = 4 then some ([] : List (List Char))
            else none).isSome),
        ((((List.range 5).map (fun k => 0 + k)).filter
          (fun d => (if d = 0 ∨ d = 2 ∨ d = 4 then some ([] : List (List Char))
            else none).isSome)).map
            (fun d => (fun l : List ℚ => l.sum) ((fun _ : ℕ => ([] : List ℚ)) d)),
        ((((List.range 5).map (fun k => 0 + k)).filter
          (fun d => (if d = 0 ∨ d = 2 ∨ d = 4 then some ([] : List (List Char))
            else none).isSome)).map
            (fun d => (fun l : List ℚ => l.sum) ((fun _ : ℕ => ([] : List ℚ)) d)))))) ∧
    List.Pairwise (· < ·)
      (((List.range 5).map (fun k => 0 + k)).filter
        (fun d => (if d = 0 ∨ d = 2 ∨ d = 4 then some ([] : List (List Char))
          else none).isSome)) :=
  daily_series_existing_dates (fun l => l.sum) 0 5
    (fun d => if d = 0 ∨ d = 2 ∨ d = 4 then some [] else none)
    (fun _ => []) (fun _ => []) (fun _ => [])
    (by
      intro d lines hfs
      by_cases hd : d = 0 ∨ d = 2 ∨ d = 4
      · simp only [if_pos hd, Option.some.injEq] at hfs
        rw [← hfs]
        rfl
      · exfalso
        have hfs2 : (if d = 0 ∨ d = 2 ∨ d = 4 then some ([] : List (List Char))
            else none) = some lines := hfs
        rw [if_neg hd] at hfs2
        cases hfs2)
